import Mathlib

/-!
Verification of the real-time capture / transcript-reconciliation frontend
(`frontend/public/audio-processor.js`, `frontend/app/page.tsx`,
`frontend/components/ComparisonView.tsx`).

All machine floats are embedded as rationals (`ℚ`); the 16-bit store of an
`Int16Array` is made explicit (truncation toward zero, then wrap mod 2^16
reinterpreted as a signed value).
-/

/-! ### PCM conversion — `audio-processor.js`, `floatTo16BitPCM` -/

/-- Model of `Math.max(-1, Math.min(1, x))` from `floatTo16BitPCM`. -/
def clamp1 (x : ℚ) : ℚ := max (-1) (min 1 x)

/-- Truncation toward zero, as performed when a JS number is stored into an
`Int16Array` (ToIntegerOrInfinity). -/
def truncI (q : ℚ) : ℤ := if 0 ≤ q then ⌊q⌋ else -⌊-q⌋

/-- Wrap an integer into a signed 16-bit value, the final step of an
`Int16Array` element store. -/
def toInt16 (n : ℤ) : ℤ :=
  if n % 65536 < 32768 then n % 65536 else n % 65536 - 65536

/-- One element of `floatTo16BitPCM`:
`const s = Math.max(-1, Math.min(1, v)); s < 0 ? s * 0x8000 : s * 0x7fff`
stored into an `Int16Array` slot. -/
def pcmSample (x : ℚ) : ℤ :=
  toInt16 (truncI (if clamp1 x < 0 then clamp1 x * 32768 else clamp1 x * 32767))

/-- The elementwise mapping described by the spec sentence: clamp to [-1,1],
scale negatives by 32768 and non-negatives by 32767, store as a 16-bit signed
integer (no wrap step — the spec asserts the value already fits). -/
def pcmSampleSpec (x : ℚ) : ℤ :=
  if clamp1 x < 0 then truncI (clamp1 x * 32768) else truncI (clamp1 x * 32767)

/-- Model of `floatTo16BitPCM` over a whole buffer. -/
def floatTo16BitPCM (xs : List ℚ) : List ℤ := xs.map pcmSample

/-! ### Sample accumulator — `audio-processor.js`, `AudioCaptureProcessor` -/

/-- The processor's mutable state: the samples written to `this.buffer` so far
(`bufferIndex` is its length) and the log of frames posted to the main
thread. -/
structure ProcState where
  buffer : List ℚ
  frames : List (List ℤ)
deriving DecidableEq

/-- Model of `this.bufferSize = 4096`. -/
def frameSize : Nat := 4096

/-- The body of the inner loop of `process`: write one sample at
`bufferIndex++`; when the buffer is full, convert it to PCM, post it, and
reset the buffer. -/
def pushSample (st : ProcState) (x : ℚ) : ProcState :=
  let buf := st.buffer ++ [x]
  if frameSize ≤ buf.length then
    ⟨[], st.frames ++ [floatTo16BitPCM buf]⟩
  else
    ⟨buf, st.frames⟩

/-- The loop `for (let i = 0; i < inputChannel.length; i++)`. -/
def processChannel (st : ProcState) (samples : List ℚ) : ProcState :=
  samples.foldl pushSample st

/-- One `process(inputs, outputs, parameters)` callback: take `inputs[0]`,
skip it when it has no channels, otherwise feed channel 0. -/
def process (st : ProcState) (inputs : List (List (List ℚ))) : ProcState :=
  let input := inputs.headD []
  if 0 < input.length then processChannel st (input.headD []) else st

/-- A whole capture run: a sequence of callbacks, each delivering one block of
channel-0 samples, starting from the freshly constructed processor. -/
def runBlocks (blocks : List (List ℚ)) : ProcState :=
  blocks.foldl (fun st b => process st [[b]]) ⟨[], []⟩

/-! ### Client message handling — `app/page.tsx` -/

/-- The `Metrics` interface of `page.tsx`. -/
structure Metrics where
  cpu_percent : ℚ
  memory_mb : ℚ
  avg_chunk_time_ms : ℚ
  rtf : ℚ
  processing_time_ms : Option ℚ
deriving DecidableEq

/-- The `TranscriptSegment` interface; `type` is the string tag stored by the
handler (`'partial'` or `'final'` for every segment it ever creates). -/
structure TranscriptSegment where
  text : String
  type : String
  timestamp : Nat
deriving DecidableEq

/-- The client-side state touched by `ws.onmessage`: the `transcript` and
`currentModel` and `metrics` and `status` React states plus the
`metricsHistoryRef` ref. -/
structure ClientState where
  transcript : List TranscriptSegment
  currentModel : String
  metrics : Option Metrics
  metricsHistory : List Metrics
  status : String
deriving DecidableEq

/-- A parsed inbound message (`JSON.parse(event.data)`); `text` and `metrics`
may be absent. -/
structure InMsg where
  type : String
  text : Option String
  metrics : Option Metrics
  model : String
  message : String
deriving DecidableEq

/-- JS truthiness of `data.text`: present and non-empty. -/
def truthyText : Option String → Bool
  | some s => s != ""
  | none => false

/-- Model of `prev.filter(s => s.type === 'final')`. -/
def finalOnly (l : List TranscriptSegment) : List TranscriptSegment :=
  l.filter (fun s => s.type == "final")

/-- The `setTranscript` updater of the `partial`/`final` branch: both arms
filter the previous segments down to the finals and append the new segment. -/
def mergeSegment (prev : List TranscriptSegment) (ty tx : String) (now : Nat) :
    List TranscriptSegment :=
  if ty = "partial" then finalOnly prev ++ [⟨tx, ty, now⟩]
  else finalOnly prev ++ [⟨tx, ty, now⟩]

/-- Model of the metrics branch: `if (data.metrics)` then `setMetrics(data.metrics)` and `metricsHistoryRef.current.push(data.metrics)`. -/
def recordMetrics (st : ClientState) (mo : Option Metrics) : ClientState :=
  match mo with
  | some mt => { st with metrics := some mt, metricsHistory := st.metricsHistory ++ [mt] }
  | none => st

/-- The dispatch of `ws.onmessage` (page.tsx lines 95–128). -/
def onMessage (st : ClientState) (m : InMsg) (now : Nat) : ClientState :=
  if m.type = "connected" then
    { st with currentModel := m.model }
  else if m.type = "partial" ∨ m.type = "final" then
    recordMetrics
      (if truthyText m.text then
        { st with transcript := mergeSegment st.transcript m.type (m.text.getD "") now }
      else st)
      m.metrics
  else if m.type = "model_switched" then
    { st with currentModel := m.model, status := "Switched to " ++ m.model }
  else if m.type = "error" then
    { st with status := "Error: " ++ m.message }
  else st

/-- Client state at the start of a recording session (`startRecording` resets
the transcript and the metrics history; the `useState` defaults supply the
rest). -/
def initialState : ClientState :=
  ⟨[], "vosk", none, [], "Disconnected"⟩

/-- Fold a timestamped message sequence through the handler. -/
def runMsgs (st : ClientState) (ms : List (InMsg × Nat)) : ClientState :=
  ms.foldl (fun s p => onMessage s p.1 p.2) st

/-- Model of `transcript.map(s => s.text).join(' ')` from `stopRecording`. -/
def buildSessionTranscript (l : List TranscriptSegment) : String :=
  String.intercalate " " (l.map (fun s => s.text))

/-- The `SessionData` interface. -/
structure SessionData where
  model : String
  timestamp : Nat
  duration : Nat
  metrics : List Metrics
  transcript : String
deriving DecidableEq

/-- The `SessionData` literal built at the top of `stopRecording`. -/
def makeSessionData (model : String) (start now : Nat) (hist : List Metrics)
    (transcript : List TranscriptSegment) : SessionData :=
  ⟨model, start, now - start, hist, buildSessionTranscript transcript⟩

/-! ### `stopRecording` teardown — `app/page.tsx` lines 156–193

`stopRecording` is a straight-line statement sequence with no try/catch: the
session save (localStorage read + parse + write), then four guarded cleanup
blocks, then the final state updates.  A thrown exception in any statement
aborts the rest of the function.  We model each statement by whether its
guard holds (`present`) and whether it throws (`fails`), and log the steps
that complete. -/

inductive StopStep where
  | save
  | closeWs
  | disconnectWorklet
  | closeCtx
  | stopTracks
  | setStopped
deriving DecidableEq

/-- Which refs are non-null and which statements throw during one
`stopRecording` call. -/
structure StopEnv where
  wsPresent : Bool
  workletPresent : Bool
  ctxPresent : Bool
  streamPresent : Bool
  saveFails : Bool
  closeFails : Bool
  disconnectFails : Bool
  ctxCloseFails : Bool
  stopTracksFails : Bool
deriving DecidableEq

/-- Run a statement sequence: a skipped guard falls through, a completed
statement is logged, a throw aborts the remaining statements (returns the
steps completed so far — none after the throw — and `false` for abnormal
termination). -/
def runSteps : List (Bool × Bool × StopStep) → List StopStep × Bool
  | [] => ([], true)
  | (present, fails, s) :: rest =>
    if present then
      if fails then ([], false)
      else
        let r := runSteps rest
        (s :: r.1, r.2)
    else runSteps rest

/-- The statement sequence of `stopRecording`, in source order: the
(unguarded) session save, `wsRef.current.close()`,
`workletNodeRef.current.disconnect()`, `audioContextRef.current.close()`,
`streamRef.current.getTracks().forEach(t => t.stop())`, and the final
`setIsRecording(false); setStatus('Stopped')`. -/
def stopPlan (env : StopEnv) : List (Bool × Bool × StopStep) :=
  [(true, env.saveFails, StopStep.save),
   (env.wsPresent, env.closeFails, StopStep.closeWs),
   (env.workletPresent, env.disconnectFails, StopStep.disconnectWorklet),
   (env.ctxPresent, env.ctxCloseFails, StopStep.closeCtx),
   (env.streamPresent, env.stopTracksFails, StopStep.stopTracks),
   (true, false, StopStep.setStopped)]

/-- Model of `stopRecording` as the executed-step log plus a normal-completion flag. -/
def stopRecording (env : StopEnv) : List StopStep × Bool :=
  runSteps (stopPlan env)

/-! ### Comparison engine — `components/ComparisonView.tsx` -/

/-- The accumulator literal `{ cpu: 0, memory: 0, chunkTime: 0, rtf: 0 }` of
`getAverageMetrics`. -/
structure SumAcc where
  cpu : ℚ
  memory : ℚ
  chunkTime : ℚ
  rtf : ℚ
deriving DecidableEq

/-- The result record of `getAverageMetrics`. -/
structure AvgMetrics where
  avgCPU : ℚ
  avgMemory : ℚ
  avgChunkTime : ℚ
  avgRTF : ℚ
deriving DecidableEq

/-- The reducer of `getAverageMetrics`. -/
def sumStep (acc : SumAcc) (m : Metrics) : SumAcc :=
  ⟨acc.cpu + m.cpu_percent, acc.memory + m.memory_mb,
   acc.chunkTime + m.avg_chunk_time_ms, acc.rtf + m.rtf⟩

/-- Model of `getAverageMetrics(session)` (ComparisonView.tsx lines 72–92): `null` for
an empty metrics list, otherwise the per-field arithmetic means. -/
def getAverageMetrics (session : SessionData) : Option AvgMetrics :=
  if session.metrics.length = 0 then none
  else
    let sum := session.metrics.foldl sumStep ⟨0, 0, 0, 0⟩
    let count : ℚ := session.metrics.length
    some ⟨sum.cpu / count, sum.memory / count, sum.chunkTime / count, sum.rtf / count⟩

/-- Shape invariant of the reconciled transcript: every segment except
possibly the last is a committed `final`, and every segment carries one of
the two tags the handler ever stores. -/
def segInv (l : List TranscriptSegment) : Prop :=
  (∀ s ∈ l.dropLast, s.type = "final") ∧
  (∀ s ∈ l, s.type = "partial" ∨ s.type = "final")

/-- JS `arr.slice(-n)`: the last `n` elements (all of them when shorter). -/
def takeLast (n : Nat) (l : List Nat) : List Nat := l.drop (l.length - n)

/-- Model of `toggleSession(index)` (ComparisonView.tsx lines 62–70): deselect when
already selected, otherwise append and keep the last two. -/
def toggleSession (prev : List Nat) (index : Nat) : List Nat :=
  if index ∈ prev then prev.filter (fun i => i != index)
  else takeLast 2 (prev ++ [index])

/-! ## Lemmas about the PCM conversion -/

theorem clamp1_bounds (x : ℚ) : -1 ≤ clamp1 x ∧ clamp1 x ≤ 1 :=
  ⟨le_max_left _ _, max_le (by norm_num) (min_le_left _ _)⟩

theorem truncI_range_neg (q : ℚ) (h1 : -32768 ≤ q) (h2 : q < 0) :
    -32768 ≤ truncI q ∧ truncI q ≤ 0 := by
  have hq : ¬ 0 ≤ q := not_le.mpr h2
  rw [truncI, if_neg hq]
  have hfl : (⌊-q⌋ : ℚ) ≤ -q := Int.floor_le (-q)
  have hub : (⌊-q⌋ : ℚ) ≤ 32768 := le_trans hfl (by linarith)
  have hub' : ⌊-q⌋ ≤ 32768 := by exact_mod_cast hub
  have hlb : (0 : ℤ) ≤ ⌊-q⌋ := Int.le_floor.mpr (by push_cast; linarith)
  omega

theorem truncI_range_pos (q : ℚ) (h1 : 0 ≤ q) (h2 : q ≤ 32767) :
    0 ≤ truncI q ∧ truncI q ≤ 32767 := by
  rw [truncI, if_pos h1]
  have hfl : (⌊q⌋ : ℚ) ≤ q := Int.floor_le q
  have hub : (⌊q⌋ : ℚ) ≤ 32767 := le_trans hfl h2
  have hub' : ⌊q⌋ ≤ 32767 := by exact_mod_cast hub
  have hlb : (0 : ℤ) ≤ ⌊q⌋ := Int.le_floor.mpr (by push_cast; linarith)
  omega

theorem toInt16_id (n : ℤ) (h1 : -32768 ≤ n) (h2 : n ≤ 32767) : toInt16 n = n := by
  rw [toInt16]; split <;> omega

theorem pcmSampleSpec_range (x : ℚ) :
    -32768 ≤ pcmSampleSpec x ∧ pcmSampleSpec x ≤ 32767 := by
  obtain ⟨hl, hu⟩ := clamp1_bounds x
  rw [pcmSampleSpec]
  by_cases h : clamp1 x < 0
  · rw [if_pos h]
    obtain ⟨r1, r2⟩ := truncI_range_neg (clamp1 x * 32768) (by nlinarith) (by nlinarith)
    exact ⟨r1, by omega⟩
  · rw [if_neg h]
    have h0 : 0 ≤ clamp1 x := not_lt.mp h
    obtain ⟨r1, r2⟩ := truncI_range_pos (clamp1 x * 32767) (by nlinarith) (by nlinarith)
    exact ⟨by omega, r2⟩

theorem pcmSample_eq_spec (x : ℚ) : pcmSample x = pcmSampleSpec x := by
  obtain ⟨r1, r2⟩ := pcmSampleSpec_range x
  rw [pcmSample]
  by_cases h : clamp1 x < 0
  · rw [if_pos h]
    have e : pcmSampleSpec x = truncI (clamp1 x * 32768) := by rw [pcmSampleSpec, if_pos h]
    rw [← e] at *
    exact toInt16_id _ r1 r2
  · rw [if_neg h]
    have e : pcmSampleSpec x = truncI (clamp1 x * 32767) := by rw [pcmSampleSpec, if_neg h]
    rw [← e] at *
    exact toInt16_id _ r1 r2

/-- C2: PCM conversion is a pure, deterministic, saturating elementwise map:
each float is clamped to [-1, 1]; a negative clamped value s is scaled by
32768 and a non-negative one by 32767, and the stored 16-bit value equals
that scaled value (the Int16 store never wraps); input 1.5 encodes to 32767
and input -2.0 encodes to -32768. -/
theorem c2_pcm_conversion :
    (∀ xs : List ℚ, floatTo16BitPCM xs = xs.map pcmSample) ∧
    (∀ x : ℚ, pcmSample x = pcmSampleSpec x) ∧
    (∀ x : ℚ, -32768 ≤ pcmSample x ∧ pcmSample x ≤ 32767) ∧
    pcmSample (3/2) = 32767 ∧ pcmSample (-2) = -32768 := by
  refine ⟨fun xs => rfl, pcmSample_eq_spec, ?_, ?_, ?_⟩
  · intro x
    rw [pcmSample_eq_spec]
    exact pcmSampleSpec_range x
  · norm_num [pcmSample, clamp1, truncI, toInt16]
  · norm_num [pcmSample, clamp1, truncI, toInt16]

/-! ## Lemmas about the sample accumulator -/

theorem processChannel_append (st : ProcState) (a b : List ℚ) :
    processChannel st (a ++ b) = processChannel (processChannel st a) b := by
  simp [processChannel, List.foldl_append]

theorem take_len_add {α : Type} (A B : List α) (m : Nat) :
    (A ++ B).take (A.length + m) = A ++ B.take m := by
  simp [List.take_append_eq_append_take]

theorem processChannel_frames_accum (xs : List ℚ) :
    ∀ (buf : List ℚ) (fr : List (List ℤ)),
      processChannel ⟨buf, fr⟩ xs
        = ⟨(processChannel ⟨buf, []⟩ xs).buffer,
           fr ++ (processChannel ⟨buf, []⟩ xs).frames⟩ := by
  induction xs with
  | nil => intro buf fr; simp [processChannel]
  | cons x rest ih =>
    intro buf fr
    have e1 : processChannel ⟨buf, fr⟩ (x :: rest)
        = processChannel (pushSample ⟨buf, fr⟩ x) rest := rfl
    have e2 : processChannel ⟨buf, []⟩ (x :: rest)
        = processChannel (pushSample ⟨buf, []⟩ x) rest := rfl
    rw [e1, e2]
    by_cases h : frameSize ≤ (buf ++ [x]).length
    · simp only [pushSample, if_pos h, List.nil_append]
      rw [ih [] (fr ++ [floatTo16BitPCM (buf ++ [x])]), ih [] [floatTo16BitPCM (buf ++ [x])]]
      simp
    · simp only [pushSample, if_neg h]
      exact ih (buf ++ [x]) fr

theorem processChannel_chunks (xs : List ℚ) :
    ∀ buf : List ℚ, buf.length < frameSize →
      ((processChannel ⟨buf, []⟩ xs).buffer
          = (buf ++ xs).drop (frameSize * ((buf.length + xs.length) / frameSize))) ∧
      ((processChannel ⟨buf, []⟩ xs).frames.length = (buf.length + xs.length) / frameSize) ∧
      ((processChannel ⟨buf, []⟩ xs).frames.flatten
          = floatTo16BitPCM
              ((buf ++ xs).take (frameSize * ((buf.length + xs.length) / frameSize)))) ∧
      (∀ f ∈ (processChannel ⟨buf, []⟩ xs).frames, f.length = frameSize) := by
  induction xs with
  | nil =>
    intro buf hbuf
    have hz : buf.length / frameSize = 0 := Nat.div_eq_of_lt hbuf
    simp [processChannel, hz, floatTo16BitPCM]
  | cons x rest ih =>
    intro buf hbuf
    have e2 : processChannel ⟨buf, []⟩ (x :: rest)
        = processChannel (pushSample ⟨buf, []⟩ x) rest := rfl
    rw [e2]
    by_cases h : frameSize ≤ (buf ++ [x]).length
    · -- the buffer fills exactly now: buf.length + 1 = frameSize
      have hfull : (buf ++ [x]).length = frameSize := by
        simp only [List.length_append, List.length_singleton] at h ⊢; omega
      simp only [pushSample, if_pos h, List.nil_append]
      rw [processChannel_frames_accum rest [] [floatTo16BitPCM (buf ++ [x])]]
      obtain ⟨ihb, ihl, ihj, ihm⟩ := ih [] (by norm_num [frameSize])
      simp only [List.nil_append, List.length_nil, Nat.zero_add] at ihb ihl ihj
      have harith : (buf.length + (x :: rest).length) / frameSize
          = rest.length / frameSize + 1 := by
        have e : buf.length + (x :: rest).length = rest.length + frameSize := by
          simp only [List.length_cons]
          simp only [List.length_append, List.length_singleton] at hfull
          omega
        rw [e, Nat.add_div_right _ (by norm_num [frameSize])]
      have hsplit : buf ++ x :: rest = (buf ++ [x]) ++ rest := by simp
      have hidx : frameSize * (rest.length / frameSize + 1)
          = (buf ++ [x]).length + frameSize * (rest.length / frameSize) := by
        rw [hfull]; ring
      refine ⟨?_, ?_, ?_, ?_⟩
      · rw [harith, hsplit, hidx, List.drop_append_eq_append_drop]
        simp [ihb]
      · rw [harith]
        simp [ihl]
      · rw [harith, hsplit, hidx, take_len_add]
        simp [ihj, floatTo16BitPCM, List.map_take]
      · intro f hf
        simp only [List.cons_append, List.nil_append, List.mem_cons] at hf
        rcases hf with hf | hf
        · rw [hf]; simp only [floatTo16BitPCM, List.length_map]; simpa using hfull
        · exact ihm f hf
    · -- still room: keep accumulating
      have hlt : (buf ++ [x]).length < frameSize := not_le.mp h
      simp only [pushSample, if_neg h]
      obtain ⟨ihb, ihl, ihj, ihm⟩ := ih (buf ++ [x]) hlt
      have hsplit : buf ++ x :: rest = (buf ++ [x]) ++ rest := by simp
      have harith : buf.length + (x :: rest).length = (buf ++ [x]).length + rest.length := by
        simp; omega
      refine ⟨?_, ?_, ?_, ?_⟩
      · rw [hsplit, harith]; exact ihb
      · rw [harith]; exact ihl
      · rw [hsplit, harith]; exact ihj
      · exact ihm

theorem runBlocks_eq_join (blocks : List (List ℚ)) :
    runBlocks blocks = processChannel ⟨[], []⟩ blocks.flatten := by
  have step : ∀ (st : ProcState) (b : List ℚ), process st [[b]] = processChannel st b := by
    intro st b
    cases b with
    | nil => simp [process, processChannel]
    | cons y ys => simp [process, processChannel]
  have gen : ∀ (bl : List (List ℚ)) (st : ProcState),
      bl.foldl (fun s b => process s [[b]]) st = processChannel st bl.flatten := by
    intro bl
    induction bl with
    | nil => intro st; simp [processChannel]
    | cons b rest ih =>
      intro st
      simp only [List.foldl_cons]
      rw [step st b, ih (processChannel st b), ← processChannel_append]
      rfl
  exact gen blocks ⟨[], []⟩

/-- C3: for every sample sequence, however it is partitioned into
per-callback blocks (empty blocks are skipped without effect), the processor
emits exactly `total / 4096` frames of exactly 4096 PCM samples each; the
emitted frames are the PCM image of the committed prefix with nothing
duplicated or lost, and the accumulator holds exactly the uncommitted tail
(so it was reset after every emission). -/
theorem c3_encoder_framing (blocks : List (List ℚ)) :
    frameSize = 4096 ∧
    (∀ st : ProcState, process st [[]] = st) ∧
    (runBlocks blocks).frames.length = blocks.flatten.length / frameSize ∧
    (∀ f ∈ (runBlocks blocks).frames, f.length = frameSize) ∧
    (runBlocks blocks).frames.flatten
      = floatTo16BitPCM
          (blocks.flatten.take (frameSize * (blocks.flatten.length / frameSize))) ∧
    (runBlocks blocks).buffer
      = blocks.flatten.drop (frameSize * (blocks.flatten.length / frameSize)) := by
  obtain ⟨hb, hl, hj, hm⟩ :=
    processChannel_chunks blocks.flatten [] (by norm_num [frameSize])
  simp only [List.nil_append, List.length_nil, Nat.zero_add] at hb hl hj
  refine ⟨rfl, ?_, ?_, ?_, ?_, ?_⟩
  · intro st; simp [process]
  · rw [runBlocks_eq_join]; exact hl
  · rw [runBlocks_eq_join]; exact hm
  · rw [runBlocks_eq_join]; exact hj
  · rw [runBlocks_eq_join]; exact hb

/-! ## Lemmas about the message handler -/

theorem recordMetrics_transcript (st : ClientState) (mo : Option Metrics) :
    (recordMetrics st mo).transcript = st.transcript := by
  cases mo <;> rfl

theorem onMessage_connected (st : ClientState) (m : InMsg) (t : Nat)
    (h : m.type = "connected") :
    onMessage st m t = { st with currentModel := m.model } := by
  rw [onMessage, if_pos h]

theorem onMessage_data (st : ClientState) (m : InMsg) (t : Nat)
    (h : m.type = "partial" ∨ m.type = "final") :
    onMessage st m t
      = recordMetrics
          (if truthyText m.text = true then
            { st with transcript := mergeSegment st.transcript m.type (m.text.getD "") t }
          else st)
          m.metrics := by
  have hne : ¬ m.type = "connected" := by rcases h with h | h <;> rw [h] <;> decide
  rw [onMessage, if_neg hne, if_pos h]

theorem onMessage_unknown (st : ClientState) (m : InMsg) (t : Nat)
    (h1 : m.type ≠ "connected") (h2 : m.type ≠ "partial") (h3 : m.type ≠ "final")
    (h4 : m.type ≠ "model_switched") (h5 : m.type ≠ "error") :
    onMessage st m t = st := by
  rw [onMessage, if_neg h1,
    if_neg (by rintro (h | h) <;> [exact h2 h; exact h3 h]), if_neg h4, if_neg h5]

theorem onMessage_transcript_cases (st : ClientState) (m : InMsg) (t : Nat) :
    (onMessage st m t).transcript = st.transcript ∨
    ((m.type = "partial" ∨ m.type = "final") ∧ truthyText m.text = true ∧
      (onMessage st m t).transcript
        = finalOnly st.transcript ++ [⟨m.text.getD "", m.type, t⟩]) := by
  by_cases h1 : m.type = "connected"
  · left; rw [onMessage_connected st m t h1]
  by_cases h2 : m.type = "partial" ∨ m.type = "final"
  · rw [onMessage_data st m t h2, recordMetrics_transcript]
    by_cases ht : truthyText m.text = true
    · right
      refine ⟨h2, ht, ?_⟩
      rw [if_pos ht]
      show mergeSegment st.transcript m.type (m.text.getD "") t = _
      rw [mergeSegment]
      split <;> rfl
    · left; rw [if_neg ht]
  by_cases h4 : m.type = "model_switched"
  · left; rw [onMessage, if_neg h1, if_neg h2, if_pos h4]
  by_cases h5 : m.type = "error"
  · left; rw [onMessage, if_neg h1, if_neg h2, if_neg h4, if_pos h5]
  · left
    rw [onMessage_unknown st m t h1 (fun h => h2 (Or.inl h)) (fun h => h2 (Or.inr h)) h4 h5]

theorem mem_finalOnly {s : TranscriptSegment} {l : List TranscriptSegment}
    (h : s ∈ finalOnly l) : s.type = "final" := by
  rw [finalOnly] at h
  simp only [List.mem_filter] at h
  simpa using h.2

theorem segInv_step (st : ClientState) (m : InMsg) (t : Nat) (h : segInv st.transcript) :
    segInv (onMessage st m t).transcript := by
  rcases onMessage_transcript_cases st m t with he | ⟨hty, _, he⟩
  · rw [he]; exact h
  · rw [he]
    constructor
    · intro s hs
      rw [List.dropLast_concat] at hs
      exact mem_finalOnly hs
    · intro s hs
      rcases List.mem_append.mp hs with hs | hs
      · right; exact mem_finalOnly hs
      · have hse : s = ⟨m.text.getD "", m.type, t⟩ := by simpa using hs
        rw [hse]
        exact hty

theorem segInv_initial : segInv initialState.transcript := by
  constructor <;> intro s hs <;> simp [initialState] at hs

theorem segInv_runMsgs (ms : List (InMsg × Nat)) :
    ∀ st : ClientState, segInv st.transcript → segInv (runMsgs st ms).transcript := by
  induction ms with
  | nil => intro st h; exact h
  | cons p rest ih =>
    intro st h
    exact ih (onMessage st p.1 p.2) (segInv_step st p.1 p.2 h)

theorem finals_extension (st : ClientState) (m : InMsg) (t : Nat) :
    ∃ ext, finalOnly (onMessage st m t).transcript = finalOnly st.transcript ++ ext ∧
      ext.length ≤ 1 := by
  rcases onMessage_transcript_cases st m t with he | ⟨_, _, he⟩
  · exact ⟨[], by rw [he]; simp⟩
  · refine ⟨finalOnly [⟨m.text.getD "", m.type, t⟩], ?_, ?_⟩
    · rw [he]
      simp only [finalOnly, List.filter_append]
      rw [List.filter_filter]
      simp
    · exact le_trans (List.length_filter_le _ _) (by simp)

theorem nonlast_count (l : List TranscriptSegment)
    (hinv : ∀ s ∈ l.dropLast, s.type = "final") :
    (l.filter (fun s => s.type == "partial")).length ≤ 1 := by
  rcases eq_or_ne l [] with rfl | hne
  · simp
  · have hsplit : l.dropLast ++ [l.getLast hne] = l := List.dropLast_append_getLast hne
    rw [← hsplit, List.filter_append]
    have hnil : l.dropLast.filter (fun s => s.type == "partial") = [] := by
      rw [List.filter_eq_nil_iff]
      intro s hs
      rw [hinv s hs]
      decide
    rw [hnil, List.nil_append]
    exact le_trans (List.length_filter_le _ _) (by simp)

theorem map_text_split (l : List TranscriptSegment) (hinv : segInv l) :
    l.map (fun s => s.text)
      = (finalOnly l).map (fun s => s.text)
        ++ (l.filter (fun s => s.type == "partial")).map (fun s => s.text) := by
  rcases eq_or_ne l [] with rfl | hne
  · simp [finalOnly]
  · have hsplit : l.dropLast ++ [l.getLast hne] = l := List.dropLast_append_getLast hne
    have hdrop : ∀ s ∈ l.dropLast, s.type = "final" := hinv.1
    have hlast : (l.getLast hne).type = "partial" ∨ (l.getLast hne).type = "final" :=
      hinv.2 _ (List.getLast_mem hne)
    rw [← hsplit, finalOnly, List.filter_append, List.filter_append]
    have hfd : l.dropLast.filter (fun s => s.type == "final") = l.dropLast :=
      List.filter_eq_self.mpr (fun s hs => by rw [hdrop s hs]; decide)
    have hpd : l.dropLast.filter (fun s => s.type == "partial") = [] :=
      List.filter_eq_nil_iff.mpr (fun s hs => by rw [hdrop s hs]; decide)
    rw [hfd, hpd, List.nil_append]
    rcases hlast with hp | hf
    · have h1 : [l.getLast hne].filter (fun s => s.type == "final") = [] := by simp [hp]
      have h2 : [l.getLast hne].filter (fun s => s.type == "partial") = [l.getLast hne] := by
        simp [hp]
      rw [h1, h2]
      simp
    · have h1 : [l.getLast hne].filter (fun s => s.type == "final") = [l.getLast hne] := by
        simp [hf]
      have h2 : [l.getLast hne].filter (fun s => s.type == "partial") = [] := by simp [hf]
      rw [h1, h2]
      simp

/-- C4: starting from an empty transcript, the event sequence
Partial("he"), Partial("hello"), Final("hello world") leaves exactly one
committed segment "hello world": no duplicated text and no residual Partial
segment, and the committed transcript string is "hello world". -/
theorem c4_merge_rule_example :
    (runMsgs initialState
      [(⟨"partial", some "he", none, "", ""⟩, 0),
       (⟨"partial", some "hello", none, "", ""⟩, 1),
       (⟨"final", some "hello world", none, "", ""⟩, 2)]).transcript
      = [⟨"hello world", "final", 2⟩] ∧
    buildSessionTranscript
      (runMsgs initialState
        [(⟨"partial", some "he", none, "", ""⟩, 0),
         (⟨"partial", some "hello", none, "", ""⟩, 1),
         (⟨"final", some "hello world", none, "", ""⟩, 2)]).transcript
      = "hello world" := by
  constructor <;> decide

/-- C5: in every state reachable by handling inbound events from the start
of a session, the transcript holds at most one Partial segment and every
segment other than the last is Final (so a live Partial is the last
element); moreover handling one further event only ever extends the
subsequence of Final segments by at most one segment at the end — Final
segments are never altered, removed, or reordered. -/
theorem c5_reconciler_invariants (ms : List (InMsg × Nat)) (m : InMsg) (t : Nat) :
    (((runMsgs initialState ms).transcript.filter
        (fun s => s.type == "partial")).length ≤ 1) ∧
    (∀ s ∈ (runMsgs initialState ms).transcript.dropLast, s.type = "final") ∧
    (∃ ext, finalOnly (onMessage (runMsgs initialState ms) m t).transcript
        = finalOnly (runMsgs initialState ms).transcript ++ ext ∧ ext.length ≤ 1) := by
  have hinv := segInv_runMsgs ms initialState segInv_initial
  exact ⟨nonlast_count _ hinv.1, hinv.1, finals_extension _ m t⟩

/-- C9: an inbound message whose `type` is none of connected / partial /
final / model_switched / error leaves the whole client state — transcript,
metrics history, current model, current metrics, status — unchanged. -/
theorem c9_unknown_type_ignored (st : ClientState) (m : InMsg) (t : Nat)
    (h1 : m.type ≠ "connected") (h2 : m.type ≠ "partial") (h3 : m.type ≠ "final")
    (h4 : m.type ≠ "model_switched") (h5 : m.type ≠ "error") :
    onMessage st m t = st :=
  onMessage_unknown st m t h1 h2 h3 h4 h5

theorem c9_unknown_type_ignored_witness :
    ((InMsg.mk "ping" none none "" "").type ≠ "connected" ∧
     (InMsg.mk "ping" none none "" "").type ≠ "partial" ∧
     (InMsg.mk "ping" none none "" "").type ≠ "final" ∧
     (InMsg.mk "ping" none none "" "").type ≠ "model_switched" ∧
     (InMsg.mk "ping" none none "" "").type ≠ "error") ∧
    onMessage initialState (InMsg.mk "ping" none none "" "") 0 = initialState :=
  ⟨⟨by decide, by decide, by decide, by decide, by decide⟩,
   c9_unknown_type_ignored initialState (InMsg.mk "ping" none none "" "") 0
     (by decide) (by decide) (by decide) (by decide) (by decide)⟩

/-- C10: a partial/final event with empty or absent text leaves the
transcript untouched (nothing appended, no Partial removed), while a metrics
object carried by the same event is still appended to the history and
becomes the current metrics; with no metrics either, the whole state is
unchanged. -/
theorem c10_empty_text_keeps_metrics (st : ClientState) (m : InMsg) (t : Nat)
    (hty : m.type = "partial" ∨ m.type = "final") (htx : truthyText m.text = false) :
    (onMessage st m t).transcript = st.transcript ∧
    (∀ mt : Metrics, m.metrics = some mt →
      (onMessage st m t).metricsHistory = st.metricsHistory ++ [mt] ∧
      (onMessage st m t).metrics = some mt) ∧
    (m.metrics = none → onMessage st m t = st) := by
  have hcond : ¬ (truthyText m.text = true) := by rw [htx]; decide
  rw [onMessage_data st m t hty, if_neg hcond]
  refine ⟨recordMetrics_transcript st m.metrics, ?_, ?_⟩
  · intro mt hm
    rw [hm]
    exact ⟨rfl, rfl⟩
  · intro hm
    rw [hm]
    rfl

theorem c10_empty_text_keeps_metrics_witness :
    ((InMsg.mk "partial" (some "") (some ⟨1, 2, 3, 4, none⟩) "" "").type = "partial" ∨
     (InMsg.mk "partial" (some "") (some ⟨1, 2, 3, 4, none⟩) "" "").type = "final") ∧
    truthyText (some "") = false ∧
    (onMessage initialState (InMsg.mk "partial" (some "") (some ⟨1, 2, 3, 4, none⟩) "" "") 0).transcript
      = [] ∧
    (onMessage initialState (InMsg.mk "partial" (some "") (some ⟨1, 2, 3, 4, none⟩) "" "") 0).metricsHistory
      = [⟨1, 2, 3, 4, none⟩] :=
  ⟨Or.inl rfl, rfl,
   (c10_empty_text_keeps_metrics initialState
     (InMsg.mk "partial" (some "") (some ⟨1, 2, 3, 4, none⟩) "" "") 0 (Or.inl rfl) rfl).1,
   ((c10_empty_text_keeps_metrics initialState
     (InMsg.mk "partial" (some "") (some ⟨1, 2, 3, 4, none⟩) "" "") 0 (Or.inl rfl) rfl).2.1
     ⟨1, 2, 3, 4, none⟩ rfl).1⟩

/-- C1 counterexample: after Final("a") then a still-live Partial("b"), the
`SessionData.transcript` built at stop time is "a b", while the
concatenation of Final text alone is "a" — the live Partial segment DOES
contribute to the persisted transcript, refuting the claim. -/
theorem c1_counterexample :
    (makeSessionData "vosk" 0 5 []
        (runMsgs initialState
          [(⟨"final", some "a", none, "", ""⟩, 0),
           (⟨"partial", some "b", none, "", ""⟩, 1)]).transcript).transcript = "a b" ∧
    String.intercalate " "
        ((finalOnly (runMsgs initialState
          [(⟨"final", some "a", none, "", ""⟩, 0),
           (⟨"partial", some "b", none, "", ""⟩, 1)]).transcript).map (fun s => s.text))
      = "a" ∧
    ("a b" : String) ≠ "a" := by
  refine ⟨by decide, by decide, by decide⟩

/-- C1 (amended): the `SessionData.transcript` built at stop time is the
space-join of the texts of ALL segments: the Final texts in arrival order
followed by the text of the still-live Partial segment when one exists — a
live Partial at stop time does contribute to the persisted transcript. -/
theorem c1_amended_session_transcript (model : String) (a b : Nat)
    (hist : List Metrics) (ms : List (InMsg × Nat)) :
    (makeSessionData model a b hist (runMsgs initialState ms).transcript).transcript
      = String.intercalate " "
          (((finalOnly (runMsgs initialState ms).transcript).map (fun s => s.text))
            ++ (((runMsgs initialState ms).transcript.filter
                  (fun s => s.type == "partial")).map (fun s => s.text))) := by
  have hinv := segInv_runMsgs ms initialState segInv_initial
  show buildSessionTranscript _ = _
  rw [buildSessionTranscript, map_text_split _ hinv]

/-- C6 counterexample: when the session save throws (e.g. the persistent
store's quota is exceeded) while every ref is present and no teardown step
itself would fail, `stopRecording` aborts before ANY teardown step runs —
the streaming-session close, the worklet disconnect, the context close and
the track stop are all skipped, and the error escapes the function. This
refutes the claim that a storage failure cannot prevent the remaining
teardown steps. -/
theorem c6_counterexample :
    stopRecording ⟨true, true, true, true, true, false, false, false, false⟩ = ([], false) ∧
    StopStep.closeWs
      ∉ (stopRecording ⟨true, true, true, true, true, false, false, false, false⟩).1 ∧
    StopStep.stopTracks
      ∉ (stopRecording ⟨true, true, true, true, true, false, false, false, false⟩).1 :=
  ⟨rfl, by decide, by decide⟩

/-- C6 (amended): when no statement throws, `stopRecording` runs the
teardown in the claimed order — save, close the streaming session,
disconnect the audio bridge, close the audio context, stop the capture
tracks — and completes; but there is no exception handling, so a failure
raised by the session save OR by any individual teardown step aborts the
function at that step: exactly the preceding steps have executed and none of
the remaining teardown steps runs (one conjunct per failing step). -/
theorem c6_amended_teardown :
    (∀ env : StopEnv,
      env.saveFails = false → env.closeFails = false → env.disconnectFails = false →
      env.ctxCloseFails = false → env.stopTracksFails = false →
      env.wsPresent = true → env.workletPresent = true → env.ctxPresent = true →
      env.streamPresent = true →
      stopRecording env
        = ([StopStep.save, StopStep.closeWs, StopStep.disconnectWorklet, StopStep.closeCtx,
            StopStep.stopTracks, StopStep.setStopped], true)) ∧
    (∀ env : StopEnv, env.saveFails = true → stopRecording env = ([], false)) ∧
    (∀ env : StopEnv,
      env.saveFails = false → env.wsPresent = true → env.closeFails = true →
      stopRecording env = ([StopStep.save], false)) ∧
    (∀ env : StopEnv,
      env.saveFails = false → env.wsPresent = true → env.closeFails = false →
      env.workletPresent = true → env.disconnectFails = true →
      stopRecording env = ([StopStep.save, StopStep.closeWs], false)) ∧
    (∀ env : StopEnv,
      env.saveFails = false → env.wsPresent = true → env.closeFails = false →
      env.workletPresent = true → env.disconnectFails = false →
      env.ctxPresent = true → env.ctxCloseFails = true →
      stopRecording env
        = ([StopStep.save, StopStep.closeWs, StopStep.disconnectWorklet], false)) ∧
    (∀ env : StopEnv,
      env.saveFails = false → env.wsPresent = true → env.closeFails = false →
      env.workletPresent = true → env.disconnectFails = false →
      env.ctxPresent = true → env.ctxCloseFails = false →
      env.streamPresent = true → env.stopTracksFails = true →
      stopRecording env
        = ([StopStep.save, StopStep.closeWs, StopStep.disconnectWorklet,
            StopStep.closeCtx], false)) := by
  refine ⟨?_, ?_, ?_, ?_, ?_, ?_⟩
  · intro env h1 h2 h3 h4 h5 p1 p2 p3 p4
    rcases env with ⟨w1, w2, w3, w4, s1, c1, d1, x1, t1⟩
    dsimp only at h1 h2 h3 h4 h5 p1 p2 p3 p4
    subst h1; subst h2; subst h3; subst h4; subst h5
    subst p1; subst p2; subst p3; subst p4
    rfl
  · intro env h1
    rcases env with ⟨w1, w2, w3, w4, s1, c1, d1, x1, t1⟩
    dsimp only at h1
    subst h1
    rfl
  · intro env h1 p1 h2
    rcases env with ⟨w1, w2, w3, w4, s1, c1, d1, x1, t1⟩
    dsimp only at h1 p1 h2
    subst h1; subst p1; subst h2
    rfl
  · intro env h1 p1 h2 p2 h3
    rcases env with ⟨w1, w2, w3, w4, s1, c1, d1, x1, t1⟩
    dsimp only at h1 p1 h2 p2 h3
    subst h1; subst p1; subst h2; subst p2; subst h3
    rfl
  · intro env h1 p1 h2 p2 h3 p3 h4
    rcases env with ⟨w1, w2, w3, w4, s1, c1, d1, x1, t1⟩
    dsimp only at h1 p1 h2 p2 h3 p3 h4
    subst h1; subst p1; subst h2; subst p2; subst h3; subst p3; subst h4
    rfl
  · intro env h1 p1 h2 p2 h3 p3 h4 p4 h5
    rcases env with ⟨w1, w2, w3, w4, s1, c1, d1, x1, t1⟩
    dsimp only at h1 p1 h2 p2 h3 p3 h4 p4 h5
    subst h1; subst p1; subst h2; subst p2; subst h3; subst p3; subst h4
    subst p4; subst h5
    rfl

theorem c6_amended_teardown_witness :
    ((StopEnv.mk true true true true false false false false false).saveFails = false) ∧
    stopRecording ⟨true, true, true, true, false, false, false, false, false⟩
      = ([StopStep.save, StopStep.closeWs, StopStep.disconnectWorklet, StopStep.closeCtx,
          StopStep.stopTracks, StopStep.setStopped], true) ∧
    ((StopEnv.mk true true true true false true false false false).closeFails = true) ∧
    stopRecording ⟨true, true, true, true, false, true, false, false, false⟩
      = ([StopStep.save], false) :=
  ⟨rfl,
   c6_amended_teardown.1 ⟨true, true, true, true, false, false, false, false, false⟩
     rfl rfl rfl rfl rfl rfl rfl rfl rfl,
   rfl,
   c6_amended_teardown.2.2.1 ⟨true, true, true, true, false, true, false, false, false⟩
     rfl rfl rfl⟩

/-! ## Lemmas about the comparison engine -/

theorem foldl_sumStep (l : List Metrics) :
    ∀ a : SumAcc,
      l.foldl sumStep a
        = ⟨a.cpu + (l.map Metrics.cpu_percent).sum,
           a.memory + (l.map Metrics.memory_mb).sum,
           a.chunkTime + (l.map Metrics.avg_chunk_time_ms).sum,
           a.rtf + (l.map Metrics.rtf).sum⟩ := by
  induction l with
  | nil => intro a; simp
  | cons mh t ih =>
    intro a
    rw [List.foldl_cons, ih]
    simp [sumStep, add_assoc]

/-- C7: a session with no metrics samples averages to the distinguished
"no data" result `none` (not zero); a session with at least one sample
averages to the arithmetic mean of every metric field, and in particular
samples with rtf 0.4 and 0.6 average to rtf 0.5. -/
theorem c7_average_metrics :
    (∀ s : SessionData, s.metrics = [] → getAverageMetrics s = none) ∧
    (∀ s : SessionData, s.metrics ≠ [] →
      getAverageMetrics s
        = some ⟨(s.metrics.map Metrics.cpu_percent).sum / (s.metrics.length : ℚ),
                (s.metrics.map Metrics.memory_mb).sum / (s.metrics.length : ℚ),
                (s.metrics.map Metrics.avg_chunk_time_ms).sum / (s.metrics.length : ℚ),
                (s.metrics.map Metrics.rtf).sum / (s.metrics.length : ℚ)⟩) ∧
    getAverageMetrics ⟨"vosk", 0, 0, [⟨0, 0, 0, 2/5, none⟩, ⟨0, 0, 0, 3/5, none⟩], ""⟩
      = some ⟨0, 0, 0, 1/2⟩ := by
  refine ⟨?_, ?_, ?_⟩
  · intro s h
    rw [getAverageMetrics, if_pos (by rw [h]; rfl)]
  · intro s h
    have hlen : ¬ s.metrics.length = 0 := by
      simpa [List.length_eq_zero] using h
    simp only [getAverageMetrics, if_neg hlen, foldl_sumStep]
    simp
  · norm_num [getAverageMetrics, sumStep, List.foldl]

theorem c7_average_metrics_witness :
    (SessionData.mk "whisper" 0 0 [] "").metrics = [] ∧
    getAverageMetrics ⟨"whisper", 0, 0, [], ""⟩ = none ∧
    (SessionData.mk "vosk" 0 0 [⟨4, 8, 6, 2, none⟩] "").metrics ≠ [] ∧
    getAverageMetrics ⟨"vosk", 0, 0, [⟨4, 8, 6, 2, none⟩], ""⟩ = some ⟨4, 8, 6, 2⟩ :=
  ⟨rfl, c7_average_metrics.1 ⟨"whisper", 0, 0, [], ""⟩ rfl, by simp,
   (c7_average_metrics.2.1 ⟨"vosk", 0, 0, [⟨4, 8, 6, 2, none⟩], ""⟩ (by simp)).trans
     (by norm_num)⟩

/-- C8: the comparison selection never grows beyond 2 indices (toggling
preserves the ≤ 2 bound), and selecting 0, 1, 2 in order from an empty
selection leaves exactly [1, 2] — the oldest selection is evicted. -/
theorem c8_selection_window :
    (∀ (prev : List Nat) (index : Nat), prev.length ≤ 2 →
      (toggleSession prev index).length ≤ 2) ∧
    toggleSession (toggleSession (toggleSession [] 0) 1) 2 = [1, 2] := by
  constructor
  · intro prev index h
    rw [toggleSession]
    split
    · exact le_trans (List.length_filter_le _ _) h
    · rw [takeLast]
      simp only [List.length_drop]
      omega
  · decide

theorem c8_selection_window_witness :
    ([0, 1] : List Nat).length ≤ 2 ∧ (toggleSession [0, 1] 0).length ≤ 2 :=
  ⟨by decide, c8_selection_window.1 [0, 1] 0 (by decide)⟩
